import Mathlib

/-!
# Loggregator: framed TCP ingress and message router

A shallow embedding of

* `src/doppler/listeners/tcp_listener.go` (the framed connection reader
  `TCPListener.handleConnection`), and
* `src/loggregator/sinkserver/message_router.go` (the router event loop
  `messageRouter.Start` with `registerSink`, `unregisterSink`, `dumpToSink`,
  `manageDumps`, `manageDrains`, `metrics`).

Conventions.

* A connection is the list of bytes it delivers before end-of-stream.
* Go `uint32` arithmetic is natural-number arithmetic reduced modulo `2 ^ 32`.
* Go `int` is taken to be 64 bits wide, so `int(n)` is `n` for a `uint32`.
* Channel sends, channel closes and spawned goroutines are recorded, in program
  order, as a list of effects.
* Logger calls are not modelled.
-/

set_option autoImplicit false

namespace Listeners

/-! ## The framed connection reader (`tcp_listener.go`) -/

/-- One octet on the wire. -/
abbrev Byte := Fin 256

/-- The two errors a read from a stream that ends can return. -/
inductive ReadError where
  | EOF
  | ErrUnexpectedEOF
  deriving DecidableEq, Repr

/-- Go `io.ReadFull(conn, buf)` with `len(buf) = n` on a connection that delivers
`stream` and then end-of-stream: the bytes read and the rest of the stream, `EOF`
when no byte could be read, `ErrUnexpectedEOF` after a short read. A zero-length
buffer is filled without touching the connection. -/
def readFull (stream : List Byte) (n : Nat) : Except ReadError (List Byte × List Byte) :=
  if n = 0 then .ok ([], stream)
  else if stream.length = 0 then .error .EOF
  else if stream.length < n then .error .ErrUnexpectedEOF
  else .ok (stream.take n, stream.drop n)

/-- Go `binary.LittleEndian.Uint32`: `b[0] | b[1]<<8 | b[2]<<16 | b[3]<<24`. -/
def littleEndianUint32 : List Byte → Nat
  | [b0, b1, b2, b3] => b0.val + b1.val * 2 ^ 8 + b2.val * 2 ^ 16 + b3.val * 2 ^ 24
  | _ => 0

/-- Go `binary.Read(conn, binary.LittleEndian, &n)` for `n : uint32`: four bytes
are read with `io.ReadFull` and decoded. -/
def binaryReadUint32 (stream : List Byte) : Except ReadError (Nat × List Byte) :=
  match readFull stream 4 with
  | .error err => .error err
  | .ok (bs, rest) => .ok (littleEndianUint32 bs, rest)

/-- The three listener counters together with what the reader handed to its two
collaborators: the payloads given to the unmarshaller and the envelopes sent on
`envelopeChan`, both in program order. -/
structure ListenerState (E : Type) where
  receivedMessageCount : Nat
  receivedByteCount : Nat
  receiveErrorCount : Nat
  unmarshalled : List (List Byte)
  envelopeChan : List E

/-- Effect of `metrics.BatchIncrementCounter(t.receiveErrorCountMetricName)`. -/
def ListenerState.incrementReceiveError {E : Type} (st : ListenerState E) : ListenerState E :=
  { st with receiveErrorCount := st.receiveErrorCount + 1 }

/-- The `for` loop of `handleConnection` (lines 179-214). `bytes` is the reused
buffer (its length is its capacity), `stopped k` tells whether the shutdown signal
wins the `select` of the `k`-th publication attempt of this connection.
`none` is returned only when the fuel runs out. -/
def readLoop {E : Type} (unmarshaller : List Byte → Option E) (stopped : Nat → Bool) :
    Nat → Nat → List Byte → List Byte → ListenerState E → Option (ListenerState E)
  | 0, _, _, _, _ => none
  | fuel + 1, k, bytes, stream, st =>
    match binaryReadUint32 stream with
    | .error err =>
      if err ≠ ReadError.EOF then some st.incrementReceiveError else some st
    | .ok (n, stream) =>
      let bytes := if bytes.length < n then List.replicate n (0 : Byte) else bytes
      match readFull stream n with
      | .error _ => some st.incrementReceiveError
      | .ok (data, stream) =>
        let bytes := data ++ bytes.drop n
        let read := bytes.take n
        let st := { st with unmarshalled := st.unmarshalled ++ [read] }
        match unmarshaller read with
        | none => readLoop unmarshaller stopped fuel k bytes stream st
        | some envelope =>
          let st := { st with
            receivedMessageCount := st.receivedMessageCount + 1
            receivedByteCount := st.receivedByteCount + (n + 4) % 2 ^ 32 }
          if stopped k then some st
          else
            readLoop unmarshaller stopped fuel (k + 1) bytes stream
              { st with envelopeChan := st.envelopeChan ++ [envelope] }

/-- Model of `TCPListener.handleConnection`. `tlsHandshake` is `none` for a plain
connection and `some ok` for a `*tls.Conn` whose handshake succeeds (`ok = true`)
or fails. Every iteration of the loop consumes at least four bytes, so the length
of the stream plus one is enough fuel. -/
def handleConnection {E : Type} (tlsHandshake : Option Bool)
    (unmarshaller : List Byte → Option E) (stopped : Nat → Bool)
    (stream : List Byte) (st : ListenerState E) : Option (ListenerState E) :=
  match tlsHandshake with
  | some false => some st.incrementReceiveError
  | _ => readLoop unmarshaller stopped (stream.length + 1) 0 [] stream st

/-- The shutdown signal never fires. -/
def neverStopped : Nat → Bool := fun _ => false

/-- Wire encoding of a record header: `n` as four little-endian bytes. -/
def putUint32 (n : Nat) : List Byte :=
  [⟨n % 256, Nat.mod_lt _ (by decide)⟩, ⟨n / 2 ^ 8 % 256, Nat.mod_lt _ (by decide)⟩,
   ⟨n / 2 ^ 16 % 256, Nat.mod_lt _ (by decide)⟩, ⟨n / 2 ^ 24 % 256, Nat.mod_lt _ (by decide)⟩]

/-- Wire encoding of one record: header then payload. -/
def frame (p : List Byte) : List Byte := putUint32 p.length ++ p

/-- Wire encoding of a sequence of records, back to back. -/
def frames : List (List Byte) → List Byte
  | [] => []
  | p :: ps => frame p ++ frames ps

/-- A non-empty rest of a stream that stops inside a record: inside the header,
or after a header that announces more payload bytes than follow. -/
def truncatedRecord (tail : List Byte) : Prop :=
  tail ≠ [] ∧ (tail.length < 4 ∨ tail.length - 4 < littleEndianUint32 (tail.take 4))

/-- The state after the records `ps` have been read, unmarshalled, counted and
published without interruption. -/
def ListenerState.afterRecords {E : Type} (unmarshaller : List Byte → Option E)
    (st : ListenerState E) (ps : List (List Byte)) : ListenerState E :=
  { receivedMessageCount := st.receivedMessageCount + (ps.filterMap unmarshaller).length
    receivedByteCount := st.receivedByteCount +
      ((ps.filter (fun p => (unmarshaller p).isSome)).map (fun p => (p.length + 4) % 2 ^ 32)).sum
    receiveErrorCount := st.receiveErrorCount
    unmarshalled := st.unmarshalled ++ ps
    envelopeChan := st.envelopeChan ++ ps.filterMap unmarshaller }

end Listeners

namespace Sinkserver

/-! ## The message router (`message_router.go`) -/

/-- Source type tag of a log message; only `WARDEN_CONTAINER` is distinguished by
the router. -/
inductive SourceType where
  | WARDEN_CONTAINER
  | other (tag : Nat)
  deriving DecidableEq, Repr

/-- The attributes of `logmessage.LogMessage` that the router reads. -/
structure LogMessage where
  appId : String
  drainUrls : List String
  sourceType : SourceType
  message : String
  deriving DecidableEq, Repr

/-- An envelope as routed: `*logmessage.Message`. -/
structure Message where
  logMessage : LogMessage
  rawMessageLength : Nat
  deriving DecidableEq, Repr

/-- Dynamic type of a `sinks.Sink` value, as inspected by the type switches of
`registerSink` and `unregisterSink`; `other` is any implementation that matches
none of the three cases (the `testSink` of the test file). -/
inductive SinkKind where
  | DumpSink
  | SyslogSink
  | WebsocketSink
  | other
  deriving DecidableEq, Repr

/-- A sink, seen through the capabilities the router uses: its dynamic type,
`AppId()`, `Identifier()` and `ShouldReceiveErrors()`. The sink stands for its
own channel in the effects below. -/
structure Sink where
  kind : SinkKind
  appId : String
  identifier : String
  shouldReceiveErrors : Bool
  deriving DecidableEq, Repr

/-- What the router does to the outside world, in program order. -/
inductive Effect where
  /-- Send on the channel of a sink: `s.Channel() <- m`. -/
  | send (s : Sink) (m : Message)
  /-- Close of the channel of a sink: `close(s.Channel())`. -/
  | close (s : Sink)
  /-- Spawn of the long-lived task of a sink: `go s.Run()`. -/
  | run (s : Sink)
  /-- Spawn of the prefill task: `go messageRouter.dumpToSink(s, activeSinks)`. -/
  | spawnDumpToSink (s : Sink)
  /-- Send on the output channel of a dump request: `dr.outputChannel <- m`. -/
  | output (outputChannel : Nat) (m : Message)
  /-- Close of the output channel of a dump request. -/
  | closeOutput (outputChannel : Nat)
  deriving DecidableEq, Repr

/-- Modelled from the spec: the identity under which `groupedsinks.GroupedSinks`
(package `loggregator/groupedsinks`, not among the sources) keeps a sink. The spec
keeps, for each AppId, at most one DumpSink, a set of SyslogSinks keyed by drain
URL (the identifier) and a set of WebsocketSinks; sinks of one kind and one AppId
are the same sink when their identifiers agree, and two DumpSinks of one AppId
always are. -/
def sameIdentity (a b : Sink) : Bool :=
  decide (a.kind = b.kind ∧ a.appId = b.appId ∧
    (a.kind = SinkKind.DumpSink ∨ a.identifier = b.identifier))

/-- Modelled from the spec: `groupedsinks.GroupedSinks`, the registry
"application id -> dump sink, drain sinks keyed by URL, websocket sinks", as the
list of registered sinks in which no two sinks have the same identity. -/
structure GroupedSinks where
  sinks : List Sink
  unique : sinks.Pairwise (fun a b => sameIdentity a b = false)

/-- Modelled from the spec: `groupedsinks.NewGroupedSinks()`, the empty registry. -/
def NewGroupedSinks : GroupedSinks := ⟨[], List.Pairwise.nil⟩

/-- Modelled from the spec: `GroupedSinks.Register`, "insert into registry";
"return whether insertion succeeded (false if a same-identity sink already
existed)". -/
def GroupedSinks.Register (gs : GroupedSinks) (s : Sink) : GroupedSinks × Bool :=
  if h : gs.sinks.any (fun t => sameIdentity t s) = true then (gs, false)
  else
    (⟨gs.sinks ++ [s], by
        refine List.pairwise_append.mpr ⟨gs.unique, List.pairwise_singleton _ _, ?_⟩
        intro a ha b hb
        have hb2 : b = s := by simpa using hb
        subst hb2
        cases hab : sameIdentity a b with
        | false => rfl
        | true => exact absurd (List.any_eq_true.mpr ⟨a, ha, hab⟩) h⟩, true)

/-- Modelled from the spec: `GroupedSinks.Delete`, "delete from registry": the
entry with the identity of `s` is removed. -/
def GroupedSinks.Delete (gs : GroupedSinks) (s : Sink) : GroupedSinks :=
  ⟨gs.sinks.filter (fun t => !sameIdentity s t), gs.unique.filter _⟩

/-- Modelled from the spec: `GroupedSinks.For`, every sink in the group of an
AppId. -/
def GroupedSinks.For (gs : GroupedSinks) (appId : String) : List Sink :=
  gs.sinks.filter (fun t => decide (t.appId = appId))

/-- Modelled from the spec: `GroupedSinks.DrainsFor`, the SyslogSinks of an
AppId. -/
def GroupedSinks.DrainsFor (gs : GroupedSinks) (appId : String) : List Sink :=
  gs.sinks.filter (fun t => decide (t.kind = SinkKind.SyslogSink ∧ t.appId = appId))

/-- Modelled from the spec: `GroupedSinks.DrainFor`, the SyslogSink of an AppId
keyed by the drain URL, or `nil`. -/
def GroupedSinks.DrainFor (gs : GroupedSinks) (appId drainUrl : String) : Option Sink :=
  gs.sinks.find? (fun t =>
    decide (t.kind = SinkKind.SyslogSink ∧ t.appId = appId ∧ t.identifier = drainUrl))

/-- Modelled from the spec: `GroupedSinks.DumpFor`, the DumpSink of an AppId, or
`nil`. -/
def GroupedSinks.DumpFor (gs : GroupedSinks) (appId : String) : Option Sink :=
  gs.sinks.find? (fun t => decide (t.kind = SinkKind.DumpSink ∧ t.appId = appId))

/-- Modelled from the spec: the helper `contains(identifier, drainUrls)` of
package `sinkserver` (not among the sources), membership of a drain identifier
in the URL list `U` of "unregister every sink in D \ U". -/
def contains (identifier : String) (drainUrls : List String) : Bool :=
  drainUrls.any (fun u => decide (u = identifier))

/-- What the router needs from code outside the sources: whether Go
`url.Parse` accepts a drain URL, and what `ShouldReceiveErrors()` answers for the
sinks the router constructs itself. -/
structure Collaborators where
  urlParse : String → Bool
  dumpSinkReceivesErrors : Bool
  syslogSinkReceivesErrors : Bool

/-- Modelled from the spec: `sinks.NewDumpSink(appId, bufferSize, logger)`, the
dump sink of an AppId. -/
def NewDumpSink (c : Collaborators) (appId : String) : Sink :=
  { kind := SinkKind.DumpSink, appId := appId, identifier := appId,
    shouldReceiveErrors := c.dumpSinkReceivesErrors }

/-- Modelled from the spec: `sinks.NewSyslogSink(appId, drainUrl, ...)`, the
SyslogSink "for (AppId, URL, sharedErrorChannel)" whose identifier is the URL. -/
def NewSyslogSink (c : Collaborators) (appId drainUrl : String) : Sink :=
  { kind := SinkKind.SyslogSink, appId := appId, identifier := drainUrl,
    shouldReceiveErrors := c.syslogSinkReceivesErrors }

/-- The mutable state of the router: the registry `activeSinks` of `Start`, the
three counters of `messageRouter`, and the effects performed so far. -/
structure RouterState where
  activeSinks : GroupedSinks
  activeDumpSinksCounter : Int
  activeWebsocketSinksCounter : Int
  activeSyslogSinksCounter : Int
  effects : List Effect

/-- The router before `Start` has handled any event. -/
def RouterState.init : RouterState :=
  { activeSinks := NewGroupedSinks, activeDumpSinksCounter := 0,
    activeWebsocketSinksCounter := 0, activeSyslogSinksCounter := 0, effects := [] }

/-- Model of `messageRouter.registerSink`: the new state and the result `ok`. -/
def registerSink (st : RouterState) (s : Sink) : RouterState × Bool :=
  let r := st.activeSinks.Register s
  let st := { st with activeSinks := r.1 }
  let st :=
    match s.kind with
    | SinkKind.DumpSink => { st with activeDumpSinksCounter := st.activeDumpSinksCounter + 1 }
    | SinkKind.SyslogSink =>
      { st with activeSyslogSinksCounter := st.activeSyslogSinksCounter + 1 }
    | SinkKind.WebsocketSink =>
      { st with
        activeWebsocketSinksCounter := st.activeWebsocketSinksCounter + 1
        effects := st.effects ++ [Effect.spawnDumpToSink s] }
    | SinkKind.other => st
  (st, r.2)

/-- Model of `messageRouter.dumpToSink`: the sends it performs on the channel of
`sink`; `Dump d` is the snapshot `d.Dump()` of a dump sink. -/
def dumpToSink (Dump : Sink → List Message) (sink : Sink) (activeSinks : GroupedSinks) :
    List Effect :=
  let data : List Message :=
    match activeSinks.DumpFor sink.appId with
    | some dumpSink =>
      let data := Dump dumpSink
      if data.length > 20 then data.drop (data.length - 20) else data
    | none => []
  data.map (fun message => Effect.send sink message)

/-- Model of `messageRouter.unregisterSink`. -/
def unregisterSink (st : RouterState) (s : Sink) : RouterState :=
  let st := { st with
    activeSinks := st.activeSinks.Delete s
    effects := st.effects ++ [Effect.close s] }
  match s.kind with
  | SinkKind.DumpSink => { st with activeDumpSinksCounter := st.activeDumpSinksCounter - 1 }
  | SinkKind.SyslogSink => { st with activeSyslogSinksCounter := st.activeSyslogSinksCounter - 1 }
  | SinkKind.WebsocketSink =>
    { st with activeWebsocketSinksCounter := st.activeWebsocketSinksCounter - 1 }
  | SinkKind.other => st

/-- Model of `messageRouter.manageDumps`. -/
def manageDumps (c : Collaborators) (st : RouterState) (appId : String) : RouterState :=
  match st.activeSinks.DumpFor appId with
  | none =>
    let s := NewDumpSink c appId
    let r := registerSink st s
    if r.2 then { r.1 with effects := r.1.effects ++ [Effect.run s] } else r.1
  | some _ => st

/-- Body of the loop "delete all drains that were not sent" of `manageDrains`. -/
def dropUnsentDrain (drainUrls : List String) (st : RouterState) (sink : Sink) : RouterState :=
  if contains sink.identifier drainUrls then st else unregisterSink st sink

/-- Body of the loop "add all drains that didn't exist" of `manageDrains`. -/
def addMissingDrain (c : Collaborators) (appId : String) (st : RouterState)
    (drainUrl : String) : RouterState :=
  match st.activeSinks.DrainFor appId drainUrl with
  | none =>
    if c.urlParse drainUrl then
      let s := NewSyslogSink c appId drainUrl
      let r := registerSink st s
      if r.2 then { r.1 with effects := r.1.effects ++ [Effect.run s] } else r.1
    else st
  | some _ => st

/-- Model of `messageRouter.manageDrains`. Both `range` loops run over the slice
`DrainsFor(appId)` returned before their first iteration. -/
def manageDrains (c : Collaborators) (st : RouterState) (appId : String)
    (drainUrls : List String) (sourceType : SourceType) : RouterState :=
  if sourceType ≠ SourceType.WARDEN_CONTAINER then st
  else if drainUrls.length = 0 then
    (st.activeSinks.DrainsFor appId).foldl unregisterSink st
  else
    let st := (st.activeSinks.DrainsFor appId).foldl (dropUnsentDrain drainUrls) st
    drainUrls.foldl (addMissingDrain c appId) st

/-- Model of `messageRouter.metrics`: the three named values. -/
def metrics (st : RouterState) : List (String × Int) :=
  [("numberOfDumpSinks", st.activeDumpSinksCounter),
   ("numberOfSyslogSinks", st.activeSyslogSinksCounter),
   ("numberOfWebsocketSinks", st.activeWebsocketSinksCounter)]

/-- What the `select` of `Start` can receive. -/
inductive Event where
  /-- A dump request from `dumpReceiverChan`. -/
  | dumpReceiver (appId : String) (outputChannel : Nat)
  /-- A sink from `sinkOpenChan`. -/
  | sinkOpen (s : Sink)
  /-- A sink from `sinkCloseChan`. -/
  | sinkClose (s : Sink)
  /-- An error envelope from `errorChannel`. -/
  | error (receivedMessage : Message)
  /-- A primary envelope from `parsedMessageChan`. -/
  | parsedMessage (receivedMessage : Message)

/-- One iteration of the `for`/`select` loop of `messageRouter.Start`; `Dump d`
is the snapshot `d.Dump()` of a dump sink at the time of the iteration. -/
def step (c : Collaborators) (Dump : Sink → List Message) (st : RouterState) :
    Event → RouterState
  | Event.dumpReceiver appId outputChannel =>
    match st.activeSinks.DumpFor appId with
    | some sink =>
      { st with effects := st.effects ++
          (Dump sink).map (fun m => Effect.output outputChannel m) ++
          [Effect.closeOutput outputChannel] }
    | none => st
  | Event.sinkOpen s => (registerSink st s).1
  | Event.sinkClose s => unregisterSink st s
  | Event.error receivedMessage =>
    let appId := receivedMessage.logMessage.appId
    let receivers := (st.activeSinks.For appId).filter (fun s => s.shouldReceiveErrors)
    { st with effects := st.effects ++ receivers.map (fun s => Effect.send s receivedMessage) }
  | Event.parsedMessage receivedMessage =>
    let appId := receivedMessage.logMessage.appId
    let st := manageDrains c st appId receivedMessage.logMessage.drainUrls
      receivedMessage.logMessage.sourceType
    let st := manageDumps c st appId
    let receivers := st.activeSinks.For appId
    { st with effects := st.effects ++ receivers.map (fun s => Effect.send s receivedMessage) }

/-- Model of `messageRouter.Start` on a finite run: the events received by the
`select`, each with the dump snapshots of that moment, handled in order from the
empty registry. -/
def Start (c : Collaborators) (events : List ((Sink → List Message) × Event)) : RouterState :=
  events.foldl (fun st e => step c e.1 st e.2) RouterState.init

/-- Collaborators used in the concrete runs below: the URL parser rejects
exactly the string `%` (an invalid URL escape for Go `url.Parse`). -/
def exampleCollaborators : Collaborators :=
  { urlParse := fun u => !(u == "%"), dumpSinkReceivesErrors := true,
    syslogSinkReceivesErrors := false }

/-- Dump snapshots used in the concrete runs below: every dump sink is empty. -/
def emptyDumps : Sink → List Message := fun _ => []

/-- The envelope number `i` of the concrete runs below. -/
def numberedMessage (i : Nat) : Message :=
  { logMessage := { appId := "appId", drainUrls := [], sourceType := SourceType.other 1,
                    message := "message" },
    rawMessageLength := i }

/-- A dump snapshot holding the envelopes `0 .. n - 1`, oldest first. -/
def numberedDump (n : Nat) : Sink → List Message :=
  fun _ => (List.range n).map numberedMessage

/-- The subscriber of the test file: `testSink` for `appId`. -/
def testSink (shouldReceiveErrors : Bool) : Sink :=
  { kind := SinkKind.other, appId := "appId", identifier := "testSink",
    shouldReceiveErrors := shouldReceiveErrors }

/-- The events the router receives from its environment, apart from a sink-open
that carries a SyslogSink whose identifier `url.Parse` rejects: the router builds
a SyslogSink itself, in `manageDrains`, only after `url.Parse` accepted its URL,
and the sink-open channel brings subscribers. -/
def opensParsedDrain (c : Collaborators) : Event → Bool
  | Event.sinkOpen s => decide (s.kind = SinkKind.SyslogSink → c.urlParse s.identifier = true)
  | _ => true

/-- Every registered SyslogSink has an identifier that `url.Parse` accepts. -/
def drainsParse (c : Collaborators) (st : RouterState) : Prop :=
  ∀ t ∈ st.activeSinks.sinks, t.kind = SinkKind.SyslogSink → c.urlParse t.identifier = true

/-- Identifiers of the SyslogSinks registered for an AppId. -/
def drainIdentifiers (gs : GroupedSinks) (appId : String) : List String :=
  (gs.DrainsFor appId).map (fun s => s.identifier)

/-- Number of registered sinks of one kind. -/
def GroupedSinks.countKind (gs : GroupedSinks) (k : SinkKind) : Nat :=
  gs.sinks.countP (fun t => decide (t.kind = k))

end Sinkserver

namespace Listeners

/-! ## Facts about the framed reader -/

theorem littleEndianUint32_putUint32 (n : Nat) (hn : n < 2 ^ 32) :
    littleEndianUint32 (putUint32 n) = n := by
  simp only [putUint32, littleEndianUint32]
  omega

theorem putUint32_length (n : Nat) : (putUint32 n).length = 4 := rfl

theorem frame_length (p : List Byte) : (frame p).length = p.length + 4 := by
  simp [frame, putUint32_length]; omega

theorem readFull_append (p rest : List Byte) :
    readFull (p ++ rest) p.length = .ok (p, rest) := by
  unfold readFull
  by_cases h0 : p.length = 0
  · have hp : p = [] := List.length_eq_zero.mp h0
    subst hp
    simp
  · have h1 : ¬ (p ++ rest).length = 0 := by simp; intro hp; simp [hp] at h0
    have h2 : ¬ (p ++ rest).length < p.length := by simp
    simp [h0, h1, h2]

theorem binaryReadUint32_putUint32 (n : Nat) (hn : n < 2 ^ 32) (rest : List Byte) :
    binaryReadUint32 (putUint32 n ++ rest) = .ok (n, rest) := by
  unfold binaryReadUint32
  have h := readFull_append (putUint32 n) rest
  rw [putUint32_length] at h
  rw [h]
  simp [littleEndianUint32_putUint32 n hn]

theorem binaryReadUint32_nil : binaryReadUint32 [] = .error ReadError.EOF := rfl

/-- The slice handed to the unmarshaller holds exactly the payload just read,
whatever the reused buffer held before. -/
theorem take_reused_buffer (p bytes : List Byte) :
    (p ++ bytes.drop p.length).take p.length = p := by
  simp

/-- One iteration of the loop on a stream that starts with a whole record. -/
theorem readLoop_frame {E : Type} (unmarshaller : List Byte → Option E) (stopped : Nat → Bool)
    (fuel k : Nat) (bytes p rest : List Byte) (st : ListenerState E) (hp : p.length < 2 ^ 32) :
    readLoop unmarshaller stopped (fuel + 1) k bytes (frame p ++ rest) st =
      match unmarshaller p with
      | none =>
        readLoop unmarshaller stopped fuel k
          (p ++ (if bytes.length < p.length then List.replicate p.length (0 : Byte)
            else bytes).drop p.length) rest
          { st with unmarshalled := st.unmarshalled ++ [p] }
      | some envelope =>
        if stopped k then
          some { st with
            unmarshalled := st.unmarshalled ++ [p]
            receivedMessageCount := st.receivedMessageCount + 1
            receivedByteCount := st.receivedByteCount + (p.length + 4) % 2 ^ 32 }
        else
          readLoop unmarshaller stopped fuel (k + 1)
            (p ++ (if bytes.length < p.length then List.replicate p.length (0 : Byte)
              else bytes).drop p.length) rest
            { st with
              unmarshalled := st.unmarshalled ++ [p]
              receivedMessageCount := st.receivedMessageCount + 1
              receivedByteCount := st.receivedByteCount + (p.length + 4) % 2 ^ 32
              envelopeChan := st.envelopeChan ++ [envelope] } := by
  have h1 : binaryReadUint32 (frame p ++ rest) = .ok (p.length, p ++ rest) := by
    unfold frame
    rw [List.append_assoc]
    exact binaryReadUint32_putUint32 p.length hp (p ++ rest)
  rw [readLoop, h1]
  simp only [readFull_append, take_reused_buffer]

end Listeners

namespace Listeners

theorem afterRecords_nil {E : Type} (unmarshaller : List Byte → Option E)
    (st : ListenerState E) : st.afterRecords unmarshaller [] = st := by
  cases st
  simp [ListenerState.afterRecords]

/-- The loop reads a sequence of whole records and goes on with what follows. -/
theorem readLoop_frames {E : Type} (unmarshaller : List Byte → Option E) (tail : List Byte)
    (ps : List (List Byte)) :
    ∀ (fuel k : Nat) (bytes : List Byte) (st : ListenerState E),
      (∀ p ∈ ps, p.length < 2 ^ 32) → ps.length ≤ fuel →
      ∃ (k2 : Nat) (bytes2 : List Byte),
        readLoop unmarshaller neverStopped (fuel + 1) k bytes (frames ps ++ tail) st =
          readLoop unmarshaller neverStopped (fuel + 1 - ps.length) k2 bytes2 tail
            (st.afterRecords unmarshaller ps) := by
  induction ps with
  | nil =>
    intro fuel k bytes st _ _
    exact ⟨k, bytes, by simp [frames, afterRecords_nil]⟩
  | cons p ps ih =>
    intro fuel k bytes st hps hfuel
    have hp : p.length < 2 ^ 32 := hps p (List.mem_cons_self _ _)
    have hps2 : ∀ q ∈ ps, q.length < 2 ^ 32 := fun q hq => hps q (List.mem_cons_of_mem _ hq)
    obtain ⟨fuel2, rfl⟩ : ∃ f, fuel = f + 1 := ⟨fuel - 1, by simp at hfuel; omega⟩
    have hfuel2 : ps.length ≤ fuel2 := by simp at hfuel; omega
    have hfe : fuel2 + 1 + 1 - (p :: ps).length = fuel2 + 1 - ps.length := by simp
    simp only [frames, List.append_assoc]
    rw [readLoop_frame unmarshaller neverStopped (fuel2 + 1) k bytes p (frames ps ++ tail) st hp,
      hfe]
    cases hu : unmarshaller p with
    | none =>
      obtain ⟨k2, bytes2, h⟩ := ih fuel2 k
        (p ++ (if bytes.length < p.length then List.replicate p.length (0 : Byte)
          else bytes).drop p.length)
        { st with unmarshalled := st.unmarshalled ++ [p] } hps2 hfuel2
      refine ⟨k2, bytes2, ?_⟩
      simp only [h]
      congr 1
      simp [ListenerState.afterRecords, hu]
    | some envelope =>
      obtain ⟨k2, bytes2, h⟩ := ih fuel2 (k + 1)
        (p ++ (if bytes.length < p.length then List.replicate p.length (0 : Byte)
          else bytes).drop p.length)
        { st with
          unmarshalled := st.unmarshalled ++ [p]
          receivedMessageCount := st.receivedMessageCount + 1
          receivedByteCount := st.receivedByteCount + (p.length + 4) % 2 ^ 32
          envelopeChan := st.envelopeChan ++ [envelope] } hps2 hfuel2
      refine ⟨k2, bytes2, ?_⟩
      simp only [neverStopped, Bool.false_eq_true, if_false, h]
      congr 1
      simp [ListenerState.afterRecords, hu]
      omega

theorem frames_length_ge (ps : List (List Byte)) : ps.length ≤ (frames ps).length := by
  induction ps with
  | nil => simp [frames]
  | cons p ps ih => simp [frames, frame_length]; omega

/-- At a clean end of the stream the loop returns without counting an error. -/
theorem readLoop_nil {E : Type} (unmarshaller : List Byte → Option E) (stopped : Nat → Bool)
    (fuel k : Nat) (bytes : List Byte) (st : ListenerState E) :
    readLoop unmarshaller stopped (fuel + 1) k bytes [] st = some st := by
  simp [readLoop, binaryReadUint32_nil]

/-- A stream that stops inside a record makes the loop count one error. -/
theorem readLoop_truncated {E : Type} (unmarshaller : List Byte → Option E)
    (stopped : Nat → Bool) (fuel k : Nat) (bytes tail : List Byte) (st : ListenerState E)
    (ht : truncatedRecord tail) :
    readLoop unmarshaller stopped (fuel + 1) k bytes tail st = some st.incrementReceiveError := by
  obtain ⟨hne, hcase⟩ := ht
  have hlen : tail.length ≠ 0 := fun h => hne (List.length_eq_zero.mp h)
  by_cases h4 : tail.length < 4
  · have h1 : binaryReadUint32 tail = .error ReadError.ErrUnexpectedEOF := by
      simp [binaryReadUint32, readFull, hlen, h4]
    simp [readLoop, h1]
  · have hlt : tail.length - 4 < littleEndianUint32 (tail.take 4) := by
      rcases hcase with h | h
      · exact absurd h h4
      · exact h
    have h1 : binaryReadUint32 tail = .ok (littleEndianUint32 (tail.take 4), tail.drop 4) := by
      simp [binaryReadUint32, readFull, hlen, h4]
    have h2 : ∃ err, readFull (tail.drop 4) (littleEndianUint32 (tail.take 4)) = .error err := by
      unfold readFull
      have hn0 : ¬ littleEndianUint32 (tail.take 4) = 0 := by omega
      have hl : (tail.drop 4).length < littleEndianUint32 (tail.take 4) := by simpa using hlt
      by_cases he : (tail.drop 4).length = 0
      · exact ⟨ReadError.EOF, by simp only [hn0, he, if_true, if_false]⟩
      · exact ⟨ReadError.ErrUnexpectedEOF, by simp only [hn0, he, hl, if_true, if_false]⟩
    obtain ⟨err, h2⟩ := h2
    rw [readLoop, h1]
    simp only [h2]

end Listeners

namespace Listeners

/-- On a connection whose handshake does not fail, the handler reads the whole
records at the head of the stream and is left, with fuel, at what follows. -/
theorem handleConnection_frames {E : Type} (tlsHandshake : Option Bool)
    (htls : tlsHandshake ≠ some false) (unmarshaller : List Byte → Option E)
    (ps : List (List Byte)) (tail : List Byte) (st : ListenerState E)
    (hps : ∀ p ∈ ps, p.length < 2 ^ 32) :
    ∃ (fuel k : Nat) (bytes : List Byte),
      handleConnection tlsHandshake unmarshaller neverStopped (frames ps ++ tail) st =
        readLoop unmarshaller neverStopped (fuel + 1) k bytes tail
          (st.afterRecords unmarshaller ps) := by
  have hfuel : ps.length ≤ (frames ps ++ tail).length := by
    have := frames_length_ge ps
    simp only [List.length_append]
    omega
  obtain ⟨k2, bytes2, h⟩ := readLoop_frames unmarshaller tail ps (frames ps ++ tail).length 0 []
    st hps hfuel
  refine ⟨(frames ps ++ tail).length - ps.length, k2, bytes2, ?_⟩
  have hf : (frames ps ++ tail).length - ps.length + 1 =
      (frames ps ++ tail).length + 1 - ps.length := by omega
  rw [hf, ← h]
  unfold handleConnection
  match tlsHandshake, htls with
  | none, _ => rfl
  | some true, _ => rfl
  | some false, hne => exact absurd rfl hne

theorem littleEndianUint32_lt (bs : List Byte) : littleEndianUint32 bs < 2 ^ 32 := by
  match bs with
  | [] => simp [littleEndianUint32]
  | [_] => simp [littleEndianUint32]
  | [_, _] => simp [littleEndianUint32]
  | [_, _, _] => simp [littleEndianUint32]
  | [b0, b1, b2, b3] =>
    simp only [littleEndianUint32]
    have h0 := b0.isLt
    have h1 := b1.isLt
    have h2 := b2.isLt
    have h3 := b3.isLt
    omega
  | _ :: _ :: _ :: _ :: _ :: _ => simp [littleEndianUint32]

theorem putUint32_littleEndianUint32 (b0 b1 b2 b3 : Byte) :
    putUint32 (littleEndianUint32 [b0, b1, b2, b3]) = [b0, b1, b2, b3] := by
  have h0 := b0.isLt
  have h1 := b1.isLt
  have h2 := b2.isLt
  have h3 := b3.isLt
  simp only [putUint32, littleEndianUint32]
  refine List.cons_eq_cons.mpr ⟨Fin.ext ?_, List.cons_eq_cons.mpr ⟨Fin.ext ?_,
    List.cons_eq_cons.mpr ⟨Fin.ext ?_, List.cons_eq_cons.mpr ⟨Fin.ext ?_, rfl⟩⟩⟩⟩ <;>
  simp only <;> omega

/-- Every byte stream is a sequence of whole records followed by nothing or by
the beginning of a record that is cut short. -/
theorem stream_shape (stream : List Byte) :
    ∃ (ps : List (List Byte)) (tail : List Byte),
      (∀ p ∈ ps, p.length < 2 ^ 32) ∧ stream = frames ps ++ tail ∧
      (tail = [] ∨ truncatedRecord tail) := by
  suffices H : ∀ (len : Nat) (stream : List Byte), stream.length = len →
      ∃ (ps : List (List Byte)) (tail : List Byte),
        (∀ p ∈ ps, p.length < 2 ^ 32) ∧ stream = frames ps ++ tail ∧
        (tail = [] ∨ truncatedRecord tail) from H _ stream rfl
  intro len
  induction len using Nat.strong_induction_on with
  | _ len ih =>
    intro stream hlen
    match stream, hlen with
    | [], _ => exact ⟨[], [], by simp, by simp [frames], Or.inl rfl⟩
    | [b0], _ => exact ⟨[], [b0], by simp, by simp [frames], Or.inr ⟨by simp, Or.inl (by simp)⟩⟩
    | [b0, b1], _ =>
      exact ⟨[], [b0, b1], by simp, by simp [frames], Or.inr ⟨by simp, Or.inl (by simp)⟩⟩
    | [b0, b1, b2], _ =>
      exact ⟨[], [b0, b1, b2], by simp, by simp [frames], Or.inr ⟨by simp, Or.inl (by simp)⟩⟩
    | b0 :: b1 :: b2 :: b3 :: rest, hl =>
      by_cases hshort : rest.length < littleEndianUint32 [b0, b1, b2, b3]
      · refine ⟨[], b0 :: b1 :: b2 :: b3 :: rest, by simp, by simp [frames],
          Or.inr ⟨by simp, Or.inr ?_⟩⟩
        simpa using hshort
      · have hn : littleEndianUint32 [b0, b1, b2, b3] ≤ rest.length := Nat.le_of_not_lt hshort
        obtain ⟨ps, tail, hps, hrest, htail⟩ :=
          ih (rest.drop (littleEndianUint32 [b0, b1, b2, b3])).length
            (by simp at hl; simp; omega)
            (rest.drop (littleEndianUint32 [b0, b1, b2, b3])) rfl
        have hplen : (rest.take (littleEndianUint32 [b0, b1, b2, b3])).length =
            littleEndianUint32 [b0, b1, b2, b3] := by
          simp [List.length_take, hn]
        refine ⟨rest.take (littleEndianUint32 [b0, b1, b2, b3]) :: ps, tail, ?_, ?_, htail⟩
        · intro p hp
          rcases List.mem_cons.mp hp with h | h
          · rw [h, hplen]
            exact littleEndianUint32_lt _
          · exact hps p h
        · simp only [frames, frame, hplen, putUint32_littleEndianUint32, List.append_assoc]
          rw [← hrest]
          simp

end Listeners

namespace Listeners

/-! ## Claims about the framed reader -/

/-- C3 (frame decoding, as amended). On a connection whose TLS handshake does not
fail and while the shutdown signal does not fire, when the connection delivers the records
`u32 little-endian len(p) | p` of the payloads `ps` (each shorter than `2 ^ 32`
bytes, empty payloads allowed) and then end-of-stream, `handleConnection` returns,
has handed the unmarshaller exactly the payloads `ps` in order, and has published
on the envelope channel exactly the results of the payloads that unmarshal, in
wire order: a payload that fails to unmarshal is skipped and the records after it
are still processed. -/
theorem handleConnection_decodes_frames {E : Type} (tlsHandshake : Option Bool)
    (htls : tlsHandshake ≠ some false) (unmarshaller : List Byte → Option E)
    (ps : List (List Byte)) (hps : ∀ p ∈ ps, p.length < 2 ^ 32) (st : ListenerState E) :
    ∃ st2 : ListenerState E,
      handleConnection tlsHandshake unmarshaller neverStopped (frames ps) st = some st2 ∧
      st2.unmarshalled = st.unmarshalled ++ ps ∧
      st2.envelopeChan = st.envelopeChan ++ ps.filterMap unmarshaller := by
  obtain ⟨fuel, k, bytes, h⟩ :=
    handleConnection_frames tlsHandshake htls unmarshaller ps [] st hps
  rw [List.append_nil, readLoop_nil] at h
  exact ⟨st.afterRecords unmarshaller ps, h, rfl, rfl⟩

/-- Witness of C3: a plain connection carrying a two-byte record, a one-byte
record the unmarshaller rejects, and an empty record. -/
theorem handleConnection_decodes_frames_witness :
    ∃ st2 : ListenerState Nat,
      handleConnection none (fun p => if p.length = 1 then none else some p.length) neverStopped
        (frames [[1, 2], [3], []]) ⟨0, 0, 0, [], []⟩ = some st2 ∧
      st2.unmarshalled = [] ++ [[1, 2], [3], []] ∧
      st2.envelopeChan = [] ++ [[1, 2], [3], []].filterMap
        (fun p => if p.length = 1 then none else some p.length) :=
  handleConnection_decodes_frames none (by decide) _ [[1, 2], [3], []]
    (by
      intro p hp
      have h3 : p.length ≤ 2 := by
        simp only [List.mem_cons, List.mem_singleton, List.not_mem_nil, or_false] at hp
        rcases hp with h | h | h <;> simp [h]
      omega)
    ⟨0, 0, 0, [], []⟩

/-- C7 (receive-error accounting at connection end, as amended). On a connection
whose TLS handshake does not fail and while the shutdown signal does not fire, for every
byte stream and every unmarshaller: the stream is a sequence of whole records
followed by a rest that is empty or a record cut short (inside its header, or
before its announced payload is complete); however the stream is read that way,
`handleConnection` returns, and `receiveErrorCount` has increased by 0 when the
rest is empty and by exactly 1 when the rest is a record cut short. Unmarshal
failures, whatever their number, do not change the count. -/
theorem receiveErrorCount_at_connection_end {E : Type} (tlsHandshake : Option Bool)
    (htls : tlsHandshake ≠ some false) (unmarshaller : List Byte → Option E)
    (stream : List Byte) (st : ListenerState E) :
    (∃ (ps : List (List Byte)) (tail : List Byte),
      (∀ p ∈ ps, p.length < 2 ^ 32) ∧ stream = frames ps ++ tail ∧
      (tail = [] ∨ truncatedRecord tail)) ∧
    ∀ (ps : List (List Byte)) (tail : List Byte),
      (∀ p ∈ ps, p.length < 2 ^ 32) → stream = frames ps ++ tail →
      (tail = [] →
        ∃ st2 : ListenerState E,
          handleConnection tlsHandshake unmarshaller neverStopped stream st = some st2 ∧
          st2.receiveErrorCount = st.receiveErrorCount) ∧
      (truncatedRecord tail →
        ∃ st2 : ListenerState E,
          handleConnection tlsHandshake unmarshaller neverStopped stream st = some st2 ∧
          st2.receiveErrorCount = st.receiveErrorCount + 1) := by
  refine ⟨stream_shape stream, ?_⟩
  intro ps tail hps hstream
  obtain ⟨fuel, k, bytes, h⟩ :=
    handleConnection_frames tlsHandshake htls unmarshaller ps tail st hps
  rw [← hstream] at h
  constructor
  · intro htail
    rw [htail, readLoop_nil] at h
    exact ⟨_, h, rfl⟩
  · intro htail
    rw [readLoop_truncated unmarshaller neverStopped fuel k bytes tail _ htail] at h
    exact ⟨_, h, rfl⟩

/-- Witness of C7: after one whole record that fails to unmarshal, a stream that
stops two bytes into the next header counts exactly one receive error. -/
theorem receiveErrorCount_at_connection_end_witness :
    ∃ st2 : ListenerState Unit,
      handleConnection (some true) (fun _ => none) neverStopped
        (frames [[7]] ++ [1, 0]) ⟨0, 0, 0, [], []⟩ = some st2 ∧
      st2.receiveErrorCount = 0 + 1 :=
  ((receiveErrorCount_at_connection_end (some true) (by decide) (fun _ => none)
    (frames [[7]] ++ [1, 0]) ⟨0, 0, 0, [], []⟩).2 [[7]] [1, 0]
    (by
      intro p hp
      have h1 : p = [7] := by simpa using hp
      rw [h1]
      exact Nat.lt_of_lt_of_le (by decide : ([7] : List Byte).length < 2) (by decide))
    rfl).2
    ⟨by decide, Or.inl (by decide)⟩

/-- A connection that carries exactly one record whose payload unmarshals: one
message is counted, and the byte counter grows by the `uint32` sum of the payload
length and four. -/
theorem handleConnection_single_record {E : Type} (unmarshaller : List Byte → Option E)
    (p : List Byte) (hp : p.length < 2 ^ 32) (envelope : E) (hu : unmarshaller p = some envelope)
    (st : ListenerState E) :
    ∃ st2 : ListenerState E,
      handleConnection none unmarshaller neverStopped (frames [p]) st = some st2 ∧
      st2.receivedMessageCount = st.receivedMessageCount + 1 ∧
      st2.receivedByteCount = st.receivedByteCount + (p.length + 4) % 2 ^ 32 := by
  obtain ⟨fuel, k, bytes, h⟩ :=
    handleConnection_frames none (by decide) unmarshaller [p] [] st
      (by
        intro q hq
        rw [List.mem_singleton.mp hq]
        exact hp)
  rw [List.append_nil, readLoop_nil] at h
  refine ⟨_, h, ?_, ?_⟩
  · simp [ListenerState.afterRecords, hu]
  · simp [ListenerState.afterRecords, hu]

/-- C2 (counter accounting), evaluated where it fails: a record whose header
announces `n = 4294967292` bytes and whose payload unmarshals successfully counts
one message, yet the byte counter is increased by `(n + 4) mod 2 ^ 32 = 0` and not
by `n + 4 = 4294967296`, because `n + 4` is computed in `uint32` before it is
widened to `uint64`. -/
theorem receivedByteCount_wraps_for_large_record :
    ∃ st2 : ListenerState Unit,
      handleConnection none (fun _ => some ()) neverStopped
        (frames [List.replicate 4294967292 (0 : Byte)]) ⟨0, 0, 0, [], []⟩ = some st2 ∧
      st2.receivedMessageCount = 1 ∧ st2.receivedByteCount = 0 ∧
      st2.receivedByteCount ≠ 4294967292 + 4 := by
  have hlen : (List.replicate 4294967292 (0 : Byte)).length = 4294967292 :=
    List.length_replicate _ _
  obtain ⟨st2, h, hm, hb⟩ :=
    handleConnection_single_record (E := Unit) (fun _ => some ())
      (List.replicate 4294967292 (0 : Byte)) (by rw [hlen]; norm_num) () rfl ⟨0, 0, 0, [], []⟩
  rw [hlen] at hb
  have hb0 : st2.receivedByteCount = 0 := by rw [hb]; norm_num
  exact ⟨st2, h, by rw [hm], hb0, by rw [hb0]; norm_num⟩

end Listeners

namespace Sinkserver

/-! ## Facts about the registry and the router operations -/

theorem sameIdentity_self (a : Sink) : sameIdentity a a = true := by
  simp [sameIdentity]

/-- A registry holds no sink twice. -/
theorem GroupedSinks.nodup (gs : GroupedSinks) : gs.sinks.Nodup := by
  refine List.Pairwise.imp ?_ gs.unique
  intro a b hab heq
  rw [heq, sameIdentity_self] at hab
  exact Bool.noConfusion hab

theorem Register_sinks (gs : GroupedSinks) (s : Sink) :
    (gs.Register s).1.sinks =
      if gs.sinks.any (fun t => sameIdentity t s) = true then gs.sinks else gs.sinks ++ [s] := by
  unfold GroupedSinks.Register
  split <;> rfl

theorem Register_ok (gs : GroupedSinks) (s : Sink) :
    (gs.Register s).2 = !gs.sinks.any (fun t => sameIdentity t s) := by
  unfold GroupedSinks.Register
  split
  · next h => simp [h]
  · next h => simp [h]

theorem registerSink_activeSinks (st : RouterState) (s : Sink) :
    (registerSink st s).1.activeSinks = (st.activeSinks.Register s).1 := by
  unfold registerSink
  cases s.kind <;> rfl

theorem registerSink_ok (st : RouterState) (s : Sink) :
    (registerSink st s).2 = (st.activeSinks.Register s).2 := rfl

theorem unregisterSink_activeSinks (st : RouterState) (s : Sink) :
    (unregisterSink st s).activeSinks = st.activeSinks.Delete s := by
  unfold unregisterSink
  cases s.kind <;> rfl

end Sinkserver

namespace Sinkserver

/-! ## Facts about drain reconciliation -/

theorem foldl_fixed {α β : Type} (f : α → β → α) (l : List β) (a : α)
    (h : ∀ x ∈ l, f a x = a) : l.foldl f a = a := by
  induction l with
  | nil => rfl
  | cons x xs ih =>
    rw [List.foldl_cons, h x (List.mem_cons_self _ _)]
    exact ih (fun y hy => h y (List.mem_cons_of_mem _ hy))

theorem contains_iff (identifier : String) (drainUrls : List String) :
    contains identifier drainUrls = true ↔ identifier ∈ drainUrls := by
  simp [contains]

theorem mem_DrainsFor (gs : GroupedSinks) (appId : String) (t : Sink) :
    t ∈ gs.DrainsFor appId ↔
      t ∈ gs.sinks ∧ t.kind = SinkKind.SyslogSink ∧ t.appId = appId := by
  simp [GroupedSinks.DrainsFor, List.mem_filter]

theorem mem_drainIdentifiers (gs : GroupedSinks) (appId u : String) :
    u ∈ drainIdentifiers gs appId ↔
      ∃ t ∈ gs.sinks, t.kind = SinkKind.SyslogSink ∧ t.appId = appId ∧ t.identifier = u := by
  simp only [drainIdentifiers, List.mem_map, mem_DrainsFor]
  constructor
  · rintro ⟨t, ⟨h1, h2, h3⟩, h4⟩
    exact ⟨t, h1, h2, h3, h4⟩
  · rintro ⟨t, h1, h2, h3, h4⟩
    exact ⟨t, ⟨h1, h2, h3⟩, h4⟩

theorem DrainFor_eq_none_iff (gs : GroupedSinks) (appId u : String) :
    gs.DrainFor appId u = none ↔ u ∉ drainIdentifiers gs appId := by
  rw [mem_drainIdentifiers]
  simp only [GroupedSinks.DrainFor, List.find?_eq_none, decide_eq_true_eq]
  constructor
  · rintro h ⟨t, h1, h2⟩
    exact h t h1 h2
  · intro h t h1 h2
    exact h ⟨t, h1, h2⟩

/-- Registering a fresh syslog sink is refused exactly when the registry already
holds a drain of that AppId and URL. -/
theorem any_sameIdentity_NewSyslogSink (c : Collaborators) (gs : GroupedSinks)
    (appId u : String) :
    gs.sinks.any (fun t => sameIdentity t (NewSyslogSink c appId u)) = true ↔
      u ∈ drainIdentifiers gs appId := by
  rw [mem_drainIdentifiers]
  simp only [List.any_eq_true, sameIdentity, NewSyslogSink, decide_eq_true_eq]
  constructor
  · rintro ⟨t, h1, h2, h3, h4⟩
    refine ⟨t, h1, h2, h3, ?_⟩
    rcases h4 with h | h
    · rw [h2] at h
      exact SinkKind.noConfusion h
    · exact h
  · rintro ⟨t, h1, h2, h3, h4⟩
    exact ⟨t, h1, h2, h3, Or.inr h4⟩

theorem foldl_unregisterSink_sinks (ds : List Sink) :
    ∀ st : RouterState,
      (ds.foldl unregisterSink st).activeSinks.sinks =
        st.activeSinks.sinks.filter (fun t => ds.all (fun d => !sameIdentity d t)) := by
  induction ds with
  | nil => intro st; simp
  | cons d ds ih =>
    intro st
    rw [List.foldl_cons, ih, unregisterSink_activeSinks]
    simp only [GroupedSinks.Delete, List.filter_filter, List.all_cons]
    apply List.filter_congr
    intro t _
    rw [Bool.and_comm]

theorem foldl_dropUnsentDrain_sinks (drainUrls : List String) (ds : List Sink) :
    ∀ st : RouterState,
      (ds.foldl (dropUnsentDrain drainUrls) st).activeSinks.sinks =
        st.activeSinks.sinks.filter
          (fun t => ds.all (fun d => contains d.identifier drainUrls || !sameIdentity d t)) := by
  induction ds with
  | nil => intro st; simp
  | cons d ds ih =>
    intro st
    rw [List.foldl_cons, ih]
    unfold dropUnsentDrain
    by_cases hc : contains d.identifier drainUrls = true
    · simp [hc]
    · simp only [hc, Bool.false_eq_true, if_false, unregisterSink_activeSinks,
        GroupedSinks.Delete, List.filter_filter, List.all_cons]
      apply List.filter_congr
      intro t _
      simp [hc, Bool.and_comm]

/-- Which sinks survive the loop "delete all drains that were not sent": every
sink that is not a drain of the AppId, and the drains whose URL was sent. -/
theorem mem_after_dropUnsent (drainUrls : List String) (st : RouterState) (appId : String)
    (t : Sink) :
    t ∈ ((st.activeSinks.DrainsFor appId).foldl (dropUnsentDrain drainUrls)
        st).activeSinks.sinks ↔
      t ∈ st.activeSinks.sinks ∧
        (¬ (t.kind = SinkKind.SyslogSink ∧ t.appId = appId) ∨ t.identifier ∈ drainUrls) := by
  rw [foldl_dropUnsentDrain_sinks, List.mem_filter]
  apply and_congr_right
  intro ht
  simp only [List.all_eq_true, Bool.or_eq_true, contains_iff, Bool.not_eq_true',
    mem_DrainsFor]
  constructor
  · intro h
    by_cases hk : t.kind = SinkKind.SyslogSink ∧ t.appId = appId
    · right
      rcases h t ⟨ht, hk.1, hk.2⟩ with h1 | h1
      · exact h1
      · rw [sameIdentity_self] at h1
        exact Bool.noConfusion h1
    · exact Or.inl hk
  · intro h d hd
    by_cases hs : sameIdentity d t = true
    · left
      simp only [sameIdentity, decide_eq_true_eq] at hs
      obtain ⟨hk, ha, hi⟩ := hs
      have hid : d.identifier = t.identifier := by
        rcases hi with h1 | h1
        · rw [hd.2.1] at h1
          exact SinkKind.noConfusion h1
        · exact h1
      rcases h with h1 | h1
      · exact absurd ⟨hk ▸ hd.2.1, ha ▸ hd.2.2⟩ h1
      · rw [hid]
        exact h1
    · right
      simpa using hs

/-- Which sinks survive the loop "delete all drains for app": every sink that is
not a drain of the AppId. -/
theorem mem_after_unregisterAll (st : RouterState) (appId : String) (t : Sink) :
    t ∈ ((st.activeSinks.DrainsFor appId).foldl unregisterSink st).activeSinks.sinks ↔
      t ∈ st.activeSinks.sinks ∧ ¬ (t.kind = SinkKind.SyslogSink ∧ t.appId = appId) := by
  rw [foldl_unregisterSink_sinks, List.mem_filter]
  apply and_congr_right
  intro ht
  simp only [List.all_eq_true, Bool.not_eq_true', mem_DrainsFor]
  constructor
  · intro h hk
    have h1 := h t ⟨ht, hk.1, hk.2⟩
    rw [sameIdentity_self] at h1
    exact Bool.noConfusion h1
  · intro h d hd
    cases hs : sameIdentity d t with
    | false => rfl
    | true =>
      simp only [sameIdentity, decide_eq_true_eq] at hs
      exact absurd ⟨hs.1 ▸ hd.2.1, hs.2.1 ▸ hd.2.2⟩ h

end Sinkserver

namespace Sinkserver

theorem addMissingDrain_of_present (c : Collaborators) (appId : String) (st : RouterState)
    (u : String) (h : u ∈ drainIdentifiers st.activeSinks appId) :
    addMissingDrain c appId st u = st := by
  unfold addMissingDrain
  cases hd : st.activeSinks.DrainFor appId u with
  | none => exact absurd h ((DrainFor_eq_none_iff _ _ _).mp hd)
  | some d => rfl

theorem addMissingDrain_of_unparsed (c : Collaborators) (appId : String) (st : RouterState)
    (u : String) (h : c.urlParse u = false) :
    addMissingDrain c appId st u = st := by
  unfold addMissingDrain
  cases hd : st.activeSinks.DrainFor appId u with
  | none => simp [h]
  | some d => rfl

theorem addMissingDrain_new (c : Collaborators) (appId : String) (st : RouterState)
    (u : String) (h : u ∉ drainIdentifiers st.activeSinks appId) (hp : c.urlParse u = true) :
    (addMissingDrain c appId st u).activeSinks.sinks =
      st.activeSinks.sinks ++ [NewSyslogSink c appId u] := by
  have hd : st.activeSinks.DrainFor appId u = none := (DrainFor_eq_none_iff _ _ _).mpr h
  have hany : ¬ st.activeSinks.sinks.any
      (fun t => sameIdentity t (NewSyslogSink c appId u)) = true :=
    fun ha => h ((any_sameIdentity_NewSyslogSink c _ appId u).mp ha)
  have hok : (registerSink st (NewSyslogSink c appId u)).2 = true := by
    rw [registerSink_ok, Register_ok]
    simpa using hany
  have hs : (registerSink st (NewSyslogSink c appId u)).1.activeSinks.sinks =
      st.activeSinks.sinks ++ [NewSyslogSink c appId u] := by
    rw [registerSink_activeSinks, Register_sinks, if_neg hany]
  unfold addMissingDrain
  simp only [hd, hp, if_true, hok]
  exact hs

theorem mem_drainIdentifiers_addMissingDrain (c : Collaborators) (appId : String)
    (st : RouterState) (u x : String) :
    x ∈ drainIdentifiers (addMissingDrain c appId st u).activeSinks appId ↔
      x ∈ drainIdentifiers st.activeSinks appId ∨ (x = u ∧ c.urlParse u = true) := by
  by_cases h : u ∈ drainIdentifiers st.activeSinks appId
  · rw [addMissingDrain_of_present c appId st u h]
    constructor
    · exact Or.inl
    · rintro (h1 | ⟨h1, _⟩)
      · exact h1
      · rw [h1]; exact h
  · cases hp : c.urlParse u with
    | false =>
      rw [addMissingDrain_of_unparsed c appId st u hp]
      simp
    | true =>
      simp only [mem_drainIdentifiers, addMissingDrain_new c appId st u h hp, List.mem_append,
        List.mem_singleton, and_true]
      constructor
      · rintro ⟨t, h1 | h1, h2, h3, h4⟩
        · exact Or.inl ⟨t, h1, h2, h3, h4⟩
        · right
          rw [← h4, h1]
          rfl
      · rintro (⟨t, h1, h2, h3, h4⟩ | h1)
        · exact ⟨t, Or.inl h1, h2, h3, h4⟩
        · exact ⟨NewSyslogSink c appId u, Or.inr rfl, rfl, rfl, h1.symm⟩

theorem DrainsFor_addMissingDrain_other (c : Collaborators) (appId : String)
    (st : RouterState) (u b : String) (hb : b ≠ appId) :
    (addMissingDrain c appId st u).activeSinks.DrainsFor b = st.activeSinks.DrainsFor b := by
  by_cases h : u ∈ drainIdentifiers st.activeSinks appId
  · rw [addMissingDrain_of_present c appId st u h]
  · cases hp : c.urlParse u with
    | false => rw [addMissingDrain_of_unparsed c appId st u hp]
    | true =>
      simp only [GroupedSinks.DrainsFor, addMissingDrain_new c appId st u h hp,
        List.filter_append]
      have : List.filter (fun t => decide (t.kind = SinkKind.SyslogSink ∧ t.appId = b))
          [NewSyslogSink c appId u] = [] := by
        simp [NewSyslogSink, Ne.symm hb]
      rw [this, List.append_nil]

theorem mem_drainIdentifiers_foldl_add (c : Collaborators) (appId : String)
    (drainUrls : List String) :
    ∀ (st : RouterState) (x : String),
      x ∈ drainIdentifiers (drainUrls.foldl (addMissingDrain c appId) st).activeSinks appId ↔
        x ∈ drainIdentifiers st.activeSinks appId ∨ (x ∈ drainUrls ∧ c.urlParse x = true) := by
  induction drainUrls with
  | nil => intro st x; simp
  | cons u us ih =>
    intro st x
    rw [List.foldl_cons, ih, mem_drainIdentifiers_addMissingDrain, List.mem_cons]
    constructor
    · rintro ((h | ⟨h1, h2⟩) | ⟨h1, h2⟩)
      · exact Or.inl h
      · exact Or.inr ⟨Or.inl h1, h1 ▸ h2⟩
      · exact Or.inr ⟨Or.inr h1, h2⟩
    · rintro (h | ⟨h1 | h1, h2⟩)
      · exact Or.inl (Or.inl h)
      · exact Or.inl (Or.inr ⟨h1, h1 ▸ h2⟩)
      · exact Or.inr ⟨h1, h2⟩

theorem DrainsFor_foldl_add_other (c : Collaborators) (appId : String)
    (drainUrls : List String) (b : String) (hb : b ≠ appId) :
    ∀ st : RouterState,
      (drainUrls.foldl (addMissingDrain c appId) st).activeSinks.DrainsFor b =
        st.activeSinks.DrainsFor b := by
  induction drainUrls with
  | nil => intro st; rfl
  | cons u us ih =>
    intro st
    rw [List.foldl_cons, ih, DrainsFor_addMissingDrain_other c appId st u b hb]

theorem mem_drainIdentifiers_after_dropUnsent (drainUrls : List String) (st : RouterState)
    (appId x : String) :
    x ∈ drainIdentifiers ((st.activeSinks.DrainsFor appId).foldl (dropUnsentDrain drainUrls)
        st).activeSinks appId ↔
      x ∈ drainIdentifiers st.activeSinks appId ∧ x ∈ drainUrls := by
  simp only [mem_drainIdentifiers, mem_after_dropUnsent]
  constructor
  · rintro ⟨t, ⟨h1, h2⟩, h3, h4, h5⟩
    refine ⟨⟨t, h1, h3, h4, h5⟩, ?_⟩
    rcases h2 with h2 | h2
    · exact absurd ⟨h3, h4⟩ h2
    · exact h5 ▸ h2
  · rintro ⟨⟨t, h1, h3, h4, h5⟩, h6⟩
    exact ⟨t, ⟨h1, Or.inr (h5 ▸ h6)⟩, h3, h4, h5⟩

theorem DrainsFor_after_dropUnsent_other (drainUrls : List String) (st : RouterState)
    (appId b : String) (hb : b ≠ appId) :
    (((st.activeSinks.DrainsFor appId).foldl (dropUnsentDrain drainUrls)
        st).activeSinks).DrainsFor b = st.activeSinks.DrainsFor b := by
  unfold GroupedSinks.DrainsFor
  rw [foldl_dropUnsentDrain_sinks, List.filter_filter]
  apply List.filter_congr
  intro t ht
  have hm := mem_after_dropUnsent drainUrls st appId t
  rw [foldl_dropUnsentDrain_sinks, List.mem_filter] at hm
  by_cases hk : t.kind = SinkKind.SyslogSink ∧ t.appId = b
  · have hkeep : t ∈ st.activeSinks.sinks ∧
        (¬ (t.kind = SinkKind.SyslogSink ∧ t.appId = appId) ∨ t.identifier ∈ drainUrls) :=
      ⟨ht, Or.inl (fun h => hb (hk.2.symm.trans h.2))⟩
    have := (hm.mpr hkeep).2
    simp only [GroupedSinks.DrainsFor] at this
    rw [this, Bool.and_true]
  · simp [hk]

theorem DrainsFor_after_unregisterAll_other (st : RouterState) (appId b : String)
    (hb : b ≠ appId) :
    (((st.activeSinks.DrainsFor appId).foldl unregisterSink st).activeSinks).DrainsFor b =
      st.activeSinks.DrainsFor b := by
  unfold GroupedSinks.DrainsFor
  rw [foldl_unregisterSink_sinks, List.filter_filter]
  apply List.filter_congr
  intro t ht
  have hm := mem_after_unregisterAll st appId t
  rw [foldl_unregisterSink_sinks, List.mem_filter] at hm
  by_cases hk : t.kind = SinkKind.SyslogSink ∧ t.appId = b
  · have := (hm.mpr ⟨ht, fun h => hb (hk.2.symm.trans h.2)⟩).2
    simp only [GroupedSinks.DrainsFor] at this
    rw [this, Bool.and_true]
  · simp [hk]

/-- The set of drain identifiers of the AppId after `manageDrains` on a
`WARDEN_CONTAINER` envelope. -/
theorem mem_drainIdentifiers_manageDrains (c : Collaborators) (st : RouterState)
    (appId : String) (drainUrls : List String) (x : String) :
    x ∈ drainIdentifiers
        (manageDrains c st appId drainUrls SourceType.WARDEN_CONTAINER).activeSinks appId ↔
      x ∈ drainUrls ∧ (c.urlParse x = true ∨ x ∈ drainIdentifiers st.activeSinks appId) := by
  unfold manageDrains
  simp only [ne_eq, not_true_eq_false, if_false]
  by_cases hU : drainUrls.length = 0
  · have hnil : drainUrls = [] := List.length_eq_zero.mp hU
    simp only [hU, if_true]
    subst hnil
    simp only [List.not_mem_nil, false_and, iff_false, mem_drainIdentifiers,
      mem_after_unregisterAll]
    rintro ⟨t, ⟨_, h2⟩, h3, h4, _⟩
    exact h2 ⟨h3, h4⟩
  · simp only [hU, if_false]
    rw [mem_drainIdentifiers_foldl_add, mem_drainIdentifiers_after_dropUnsent]
    tauto

end Sinkserver

namespace Sinkserver

/-! ## Claims about drain reconciliation -/

/-- The drains after `manageDrains` on a `WARDEN_CONTAINER` envelope, from any
registry state: a URL is registered for the AppId exactly when it is in the list
and either parses or was registered before; when every drain registered before
parses these are the URLs of the list that parse; they are none for the empty
list; the drains of every other AppId are unchanged. -/
theorem manageDrains_drains_exact (c : Collaborators) (st : RouterState) (appId : String)
    (drainUrls : List String) :
    (∀ u, u ∈ drainIdentifiers
        (manageDrains c st appId drainUrls SourceType.WARDEN_CONTAINER).activeSinks appId ↔
      u ∈ drainUrls ∧ (c.urlParse u = true ∨ u ∈ drainIdentifiers st.activeSinks appId)) ∧
    ((∀ u ∈ drainIdentifiers st.activeSinks appId, c.urlParse u = true) →
      ∀ u, u ∈ drainIdentifiers
          (manageDrains c st appId drainUrls SourceType.WARDEN_CONTAINER).activeSinks appId ↔
        u ∈ drainUrls ∧ c.urlParse u = true) ∧
    (drainUrls = [] →
      drainIdentifiers
        (manageDrains c st appId drainUrls SourceType.WARDEN_CONTAINER).activeSinks appId = []) ∧
    (∀ b, b ≠ appId →
      (manageDrains c st appId drainUrls SourceType.WARDEN_CONTAINER).activeSinks.DrainsFor b =
        st.activeSinks.DrainsFor b) := by
  refine ⟨mem_drainIdentifiers_manageDrains c st appId drainUrls, ?_, ?_, ?_⟩
  · intro hparse u
    rw [mem_drainIdentifiers_manageDrains]
    constructor
    · rintro ⟨h1, h2 | h2⟩
      · exact ⟨h1, h2⟩
      · exact ⟨h1, hparse u h2⟩
    · rintro ⟨h1, h2⟩
      exact ⟨h1, Or.inl h2⟩
  · intro hU
    apply List.eq_nil_iff_forall_not_mem.mpr
    intro u hu
    rw [mem_drainIdentifiers_manageDrains, hU] at hu
    exact absurd hu.1 (List.not_mem_nil u)
  · intro b hb
    unfold manageDrains
    simp only [ne_eq, not_true_eq_false, if_false]
    by_cases hU : drainUrls.length = 0
    · simp only [hU, if_true]
      exact DrainsFor_after_unregisterAll_other st appId b hb
    · simp only [hU, if_false]
      rw [DrainsFor_foldl_add_other c appId drainUrls b hb,
        DrainsFor_after_dropUnsent_other drainUrls st appId b hb]

/-- C6 (reconciliation is idempotent). For every registry state, AppId and URL
list (duplicates and unparseable URLs included), running `manageDrains` a second
time with the same `WARDEN_CONTAINER` AppId and list leaves the whole router state
as the first run left it: the registry and the three counters are the same and no
effect is added, so the second run registers no SyslogSink, unregisters none,
closes no channel and starts no task. -/
theorem manageDrains_idempotent (c : Collaborators) (st : RouterState) (appId : String)
    (drainUrls : List String) :
    manageDrains c (manageDrains c st appId drainUrls SourceType.WARDEN_CONTAINER) appId
        drainUrls SourceType.WARDEN_CONTAINER =
      manageDrains c st appId drainUrls SourceType.WARDEN_CONTAINER := by
  have key := mem_drainIdentifiers_manageDrains c st appId drainUrls
  generalize manageDrains c st appId drainUrls SourceType.WARDEN_CONTAINER = st1 at key ⊢
  have hsent : ∀ d ∈ st1.activeSinks.DrainsFor appId, d.identifier ∈ drainUrls := by
    intro d hd
    have hmem : d.identifier ∈ drainIdentifiers st1.activeSinks appId :=
      List.mem_map_of_mem _ hd
    exact ((key d.identifier).mp hmem).1
  unfold manageDrains
  simp only [ne_eq, not_true_eq_false, if_false]
  by_cases hU : drainUrls.length = 0
  · simp only [hU, if_true]
    apply foldl_fixed
    intro d hd
    have h1 := hsent d hd
    rw [List.length_eq_zero.mp hU] at h1
    exact absurd h1 (List.not_mem_nil _)
  · simp only [hU, if_false]
    have hdrop : (st1.activeSinks.DrainsFor appId).foldl (dropUnsentDrain drainUrls) st1 = st1 := by
      apply foldl_fixed
      intro d hd
      unfold dropUnsentDrain
      rw [if_pos ((contains_iff _ _).mpr (hsent d hd))]
    rw [hdrop]
    apply foldl_fixed
    intro u hu
    by_cases hreg : u ∈ drainIdentifiers st1.activeSinks appId
    · exact addMissingDrain_of_present c appId st1 u hreg
    · apply addMissingDrain_of_unparsed
      cases hp : c.urlParse u with
      | false => rfl
      | true => exact absurd ((key u).mpr ⟨hu, Or.inl hp⟩) hreg

end Sinkserver

namespace Sinkserver

/-! ## Claims about dump playback, prefill and error fan-out -/

/-- C4 (websocket prefill). For every registry and every dump snapshot: when the
registry holds a DumpSink for the AppId of the sink, `dumpToSink` sends on the
channel of the sink exactly the envelopes `sent`, in order, where the snapshot is
`older ++ sent` and `sent` has `min (length of the snapshot) 20` elements; when
the AppId has no DumpSink nothing is sent. -/
theorem dumpToSink_sends_last_twenty (Dump : Sink → List Message) (sink : Sink)
    (activeSinks : GroupedSinks) :
    (∀ d, activeSinks.DumpFor sink.appId = some d →
      ∃ older sent : List Message,
        Dump d = older ++ sent ∧ sent.length = min (Dump d).length 20 ∧
        dumpToSink Dump sink activeSinks = sent.map (fun m => Effect.send sink m)) ∧
    (activeSinks.DumpFor sink.appId = none → dumpToSink Dump sink activeSinks = []) := by
  constructor
  · intro d hd
    by_cases hlen : (Dump d).length > 20
    · refine ⟨(Dump d).take ((Dump d).length - 20), (Dump d).drop ((Dump d).length - 20),
        (List.take_append_drop _ _).symm, ?_, ?_⟩
      · rw [List.length_drop]
        omega
      · simp [dumpToSink, hd, hlen]
    · refine ⟨[], Dump d, rfl, ?_, ?_⟩
      · omega
      · simp [dumpToSink, hd, hlen]
  · intro hd
    simp [dumpToSink, hd]

/-- C9 (dump playback). For every dump request: the registry and the three
counters are unchanged; if the registry holds a DumpSink for the AppId, the router
sends exactly the elements of its snapshot on the output channel, in snapshot
order, and then closes the output channel; if it holds none, nothing is sent and
the output channel is not closed. -/
theorem dumpReceiver_plays_snapshot (c : Collaborators) (Dump : Sink → List Message)
    (st : RouterState) (appId : String) (outputChannel : Nat) :
    (step c Dump st (Event.dumpReceiver appId outputChannel)).activeSinks = st.activeSinks ∧
    metrics (step c Dump st (Event.dumpReceiver appId outputChannel)) = metrics st ∧
    (∀ d, st.activeSinks.DumpFor appId = some d →
      (step c Dump st (Event.dumpReceiver appId outputChannel)).effects =
        st.effects ++ (Dump d).map (fun m => Effect.output outputChannel m) ++
          [Effect.closeOutput outputChannel]) ∧
    (st.activeSinks.DumpFor appId = none →
      (step c Dump st (Event.dumpReceiver appId outputChannel)).effects = st.effects) := by
  cases hd : st.activeSinks.DumpFor appId with
  | none => simp [step, hd]
  | some d => simp [step, hd, metrics]

/-- C5 (error fan-out). For every registry state and every error envelope taken
from the error channel, the error branch leaves the registry and the counters
unchanged and performs only sends of that envelope: one send, and only one, on
the channel of each sink of a list `receivers` without repetition, and a sink is
in `receivers` if and only if it is registered, belongs to the group of the
AppId of the envelope, and answers true to `ShouldReceiveErrors()`. -/
theorem error_fanout (c : Collaborators) (Dump : Sink → List Message) (st : RouterState)
    (receivedMessage : Message) :
    (step c Dump st (Event.error receivedMessage)).activeSinks = st.activeSinks ∧
    metrics (step c Dump st (Event.error receivedMessage)) = metrics st ∧
    ∃ receivers : List Sink,
      (step c Dump st (Event.error receivedMessage)).effects =
        st.effects ++ receivers.map (fun s => Effect.send s receivedMessage) ∧
      receivers.Nodup ∧
      ∀ s, s ∈ receivers ↔
        (s ∈ st.activeSinks.sinks ∧ s.appId = receivedMessage.logMessage.appId ∧
          s.shouldReceiveErrors = true) := by
  refine ⟨rfl, rfl, _, rfl, ?_, ?_⟩
  · exact (st.activeSinks.nodup.filter _).filter _
  · intro s
    simp only [GroupedSinks.For, List.mem_filter, decide_eq_true_eq]
    tauto

end Sinkserver

namespace Sinkserver

/-! ## Claims about non-container envelopes and about the metrics -/

theorem manageDrains_of_other_source (c : Collaborators) (st : RouterState) (appId : String)
    (drainUrls : List String) (sourceType : SourceType)
    (h : sourceType ≠ SourceType.WARDEN_CONTAINER) :
    manageDrains c st appId drainUrls sourceType = st := by
  unfold manageDrains
  rw [if_pos h]

theorem registerSink_NewDumpSink (c : Collaborators) (st : RouterState) (appId : String) :
    (registerSink st (NewDumpSink c appId)).1 =
      { st with
        activeSinks := (st.activeSinks.Register (NewDumpSink c appId)).1
        activeDumpSinksCounter := st.activeDumpSinksCounter + 1 } := rfl

theorem DrainsFor_Register_NewDumpSink (c : Collaborators) (gs : GroupedSinks)
    (appId b : String) :
    (gs.Register (NewDumpSink c appId)).1.DrainsFor b = gs.DrainsFor b := by
  unfold GroupedSinks.DrainsFor
  rw [Register_sinks]
  split
  · rfl
  · rw [List.filter_append]
    simp [NewDumpSink]

/-- What `manageDumps` leaves alone: the drains of every AppId and the syslog
counter; and it closes no channel. -/
theorem manageDumps_keeps_drains (c : Collaborators) (st : RouterState) (appId : String) :
    (∀ b, (manageDumps c st appId).activeSinks.DrainsFor b = st.activeSinks.DrainsFor b) ∧
    (manageDumps c st appId).activeSyslogSinksCounter = st.activeSyslogSinksCounter ∧
    ∃ added : List Effect,
      (manageDumps c st appId).effects = st.effects ++ added ∧
      ∀ s, Effect.close s ∉ added := by
  unfold manageDumps
  cases hd : st.activeSinks.DumpFor appId with
  | some d => exact ⟨fun _ => rfl, rfl, [], by simp, by simp⟩
  | none =>
    simp only [registerSink_NewDumpSink, registerSink_ok]
    cases hok : (st.activeSinks.Register (NewDumpSink c appId)).2 with
    | false =>
      exact ⟨fun b => DrainsFor_Register_NewDumpSink c _ appId b, rfl, [], by simp, by simp⟩
    | true =>
      exact ⟨fun b => DrainsFor_Register_NewDumpSink c _ appId b, rfl,
        [Effect.run (NewDumpSink c appId)], by simp, by simp⟩

/-- C8 (only `WARDEN_CONTAINER` envelopes touch drains). For every registry
state and every primary envelope whose source type is not `WARDEN_CONTAINER`,
whatever its AppId and `DrainUrls`: `manageDrains` does nothing, and the whole
handling of the envelope (`manageDrains`, `manageDumps`, delivery to the group)
leaves the SyslogSinks of every AppId and the syslog-sink counter unchanged and
closes no channel. -/
theorem other_source_keeps_drains (c : Collaborators) (Dump : Sink → List Message)
    (st : RouterState) (receivedMessage : Message)
    (h : receivedMessage.logMessage.sourceType ≠ SourceType.WARDEN_CONTAINER) :
    manageDrains c st receivedMessage.logMessage.appId receivedMessage.logMessage.drainUrls
        receivedMessage.logMessage.sourceType = st ∧
    (∀ b, (step c Dump st (Event.parsedMessage receivedMessage)).activeSinks.DrainsFor b =
      st.activeSinks.DrainsFor b) ∧
    (step c Dump st (Event.parsedMessage receivedMessage)).activeSyslogSinksCounter =
      st.activeSyslogSinksCounter ∧
    ∃ added : List Effect,
      (step c Dump st (Event.parsedMessage receivedMessage)).effects = st.effects ++ added ∧
      ∀ s, Effect.close s ∉ added := by
  have hdr := manageDrains_of_other_source c st receivedMessage.logMessage.appId
    receivedMessage.logMessage.drainUrls receivedMessage.logMessage.sourceType h
  obtain ⟨h1, h2, added, h3, h4⟩ := manageDumps_keeps_drains c st receivedMessage.logMessage.appId
  refine ⟨hdr, ?_, ?_, ?_⟩
  · intro b
    simp only [step, hdr]
    exact h1 b
  · simp only [step, hdr]
    exact h2
  · refine ⟨added ++ ((manageDumps c st receivedMessage.logMessage.appId).activeSinks.For
        receivedMessage.logMessage.appId).map (fun s => Effect.send s receivedMessage), ?_, ?_⟩
    · simp only [step, hdr, h3, List.append_assoc]
    · intro s hs
      rcases List.mem_append.mp hs with hs | hs
      · exact h4 s hs
      · simp at hs

/-- Witness of C8: an envelope of another source type that lists a drain URL,
handled while `app` has one drain. -/
theorem other_source_keeps_drains_witness :
    SourceType.other 1 ≠ SourceType.WARDEN_CONTAINER ∧
    (step exampleCollaborators emptyDumps
        (Start exampleCollaborators
          [(emptyDumps, Event.sinkOpen ⟨SinkKind.SyslogSink, "app", "syslog://h1:1", false⟩)])
        (Event.parsedMessage ⟨⟨"app", ["syslog://h2:2"], SourceType.other 1, "hello"⟩, 5⟩)
        ).activeSinks.DrainsFor "app" =
      (Start exampleCollaborators
          [(emptyDumps, Event.sinkOpen ⟨SinkKind.SyslogSink, "app", "syslog://h1:1", false⟩)]
        ).activeSinks.DrainsFor "app" :=
  ⟨by decide,
    (other_source_keeps_drains exampleCollaborators emptyDumps
      (Start exampleCollaborators
        [(emptyDumps, Event.sinkOpen ⟨SinkKind.SyslogSink, "app", "syslog://h1:1", false⟩)])
      ⟨⟨"app", ["syslog://h2:2"], SourceType.other 1, "hello"⟩, 5⟩ (by decide)).2.1 "app"⟩

/-- C10 (metrics equal the registry), evaluated where it fails: after the same
WebsocketSink arrives twice on the sink-open channel, the second `registerSink`
returns false and the registry holds one WebsocketSink, yet
`numberOfWebsocketSinks` is reported as 2. -/
theorem metrics_count_refused_registration :
    (registerSink
        (Start exampleCollaborators
          [(emptyDumps, Event.sinkOpen ⟨SinkKind.WebsocketSink, "app", "ws-1", true⟩)])
        ⟨SinkKind.WebsocketSink, "app", "ws-1", true⟩).2 = false ∧
    (Start exampleCollaborators
        [(emptyDumps, Event.sinkOpen ⟨SinkKind.WebsocketSink, "app", "ws-1", true⟩),
         (emptyDumps, Event.sinkOpen ⟨SinkKind.WebsocketSink, "app", "ws-1", true⟩)]
      ).activeSinks.countKind SinkKind.WebsocketSink = 1 ∧
    metrics
        (Start exampleCollaborators
          [(emptyDumps, Event.sinkOpen ⟨SinkKind.WebsocketSink, "app", "ws-1", true⟩),
           (emptyDumps, Event.sinkOpen ⟨SinkKind.WebsocketSink, "app", "ws-1", true⟩)]) =
      [("numberOfDumpSinks", 0), ("numberOfSyslogSinks", 0), ("numberOfWebsocketSinks", 2)] := by
  decide

end Sinkserver

namespace Sinkserver

/-! ## Concrete runs of prefill and dump playback -/

/-- Witness of C4, the scenario of `TestDumpToSinkLimitsMessagesTo20`: the dump
sink of `appId` holds the envelopes 0..99 and the subscriber is sent the
envelopes 80..99, in that order. -/
theorem dumpToSink_sends_last_twenty_witness :
    (∃ older sent : List Message,
      numberedDump 100 (NewDumpSink exampleCollaborators "appId") = older ++ sent ∧
      sent.length = min (numberedDump 100 (NewDumpSink exampleCollaborators "appId")).length 20 ∧
      dumpToSink (numberedDump 100) (testSink false)
          (NewGroupedSinks.Register (NewDumpSink exampleCollaborators "appId")).1 =
        sent.map (fun m => Effect.send (testSink false) m)) ∧
    dumpToSink (numberedDump 100) (testSink false)
        (NewGroupedSinks.Register (NewDumpSink exampleCollaborators "appId")).1 =
      ((List.range' 80 20).map numberedMessage).map (fun m => Effect.send (testSink false) m) :=
  ⟨(dumpToSink_sends_last_twenty (numberedDump 100) (testSink false)
      (NewGroupedSinks.Register (NewDumpSink exampleCollaborators "appId")).1).1
      (NewDumpSink exampleCollaborators "appId") (by decide),
    by decide⟩

/-- Witness of C9: after one primary envelope for `appId` the router holds its
dump sink; a dump request on output channel 7 plays the two envelopes of the
snapshot and closes the channel. -/
theorem dumpReceiver_plays_snapshot_witness :
    (step exampleCollaborators (numberedDump 2)
        (Start exampleCollaborators [(emptyDumps, Event.parsedMessage (numberedMessage 0))])
        (Event.dumpReceiver "appId" 7)).effects =
      (Start exampleCollaborators
          [(emptyDumps, Event.parsedMessage (numberedMessage 0))]).effects ++
        (numberedDump 2 (NewDumpSink exampleCollaborators "appId")).map
          (fun m => Effect.output 7 m) ++
        [Effect.closeOutput 7] :=
  (dumpReceiver_plays_snapshot exampleCollaborators (numberedDump 2)
    (Start exampleCollaborators [(emptyDumps, Event.parsedMessage (numberedMessage 0))])
    "appId" 7).2.2.1 (NewDumpSink exampleCollaborators "appId") (by decide)

end Sinkserver

namespace Sinkserver

/-! ## The drains of a running router -/

theorem mem_Register (gs : GroupedSinks) (s t : Sink) (h : t ∈ (gs.Register s).1.sinks) :
    t ∈ gs.sinks ∨ t = s := by
  rw [Register_sinks] at h
  split at h
  · exact Or.inl h
  · rcases List.mem_append.mp h with h1 | h1
    · exact Or.inl h1
    · exact Or.inr (List.mem_singleton.mp h1)

theorem drainsParse_of_subset (c : Collaborators) (st st2 : RouterState)
    (hsub : ∀ t ∈ st2.activeSinks.sinks, t ∈ st.activeSinks.sinks) (h : drainsParse c st) :
    drainsParse c st2 :=
  fun t ht hk => h t (hsub t ht) hk

theorem drainsParse_registerSink (c : Collaborators) (st : RouterState) (s : Sink)
    (hs : s.kind = SinkKind.SyslogSink → c.urlParse s.identifier = true)
    (h : drainsParse c st) : drainsParse c (registerSink st s).1 := by
  intro t ht hk
  rw [registerSink_activeSinks] at ht
  rcases mem_Register _ _ _ ht with h1 | h1
  · exact h t h1 hk
  · rw [h1] at hk ⊢
    exact hs hk

theorem drainsParse_unregisterSink (c : Collaborators) (st : RouterState) (s : Sink)
    (h : drainsParse c st) : drainsParse c (unregisterSink st s) := by
  apply drainsParse_of_subset c st _ _ h
  intro t ht
  rw [unregisterSink_activeSinks] at ht
  exact (List.mem_filter.mp ht).1

theorem drainsParse_foldl {β : Type} (c : Collaborators) (f : RouterState → β → RouterState)
    (hf : ∀ st x, drainsParse c st → drainsParse c (f st x)) (l : List β) :
    ∀ st, drainsParse c st → drainsParse c (l.foldl f st) := by
  induction l with
  | nil => intro st h; exact h
  | cons x xs ih => intro st h; exact ih _ (hf st x h)

theorem drainsParse_addMissingDrain (c : Collaborators) (appId : String) (st : RouterState)
    (u : String) (h : drainsParse c st) : drainsParse c (addMissingDrain c appId st u) := by
  by_cases hreg : u ∈ drainIdentifiers st.activeSinks appId
  · rw [addMissingDrain_of_present c appId st u hreg]
    exact h
  · cases hp : c.urlParse u with
    | false =>
      rw [addMissingDrain_of_unparsed c appId st u hp]
      exact h
    | true =>
      intro t ht hk
      rw [addMissingDrain_new c appId st u hreg hp] at ht
      rcases List.mem_append.mp ht with h1 | h1
      · exact h t h1 hk
      · rw [List.mem_singleton.mp h1]
        exact hp

theorem drainsParse_manageDrains (c : Collaborators) (st : RouterState) (appId : String)
    (drainUrls : List String) (sourceType : SourceType) (h : drainsParse c st) :
    drainsParse c (manageDrains c st appId drainUrls sourceType) := by
  unfold manageDrains
  split
  · exact h
  · split
    · exact drainsParse_foldl c unregisterSink
        (fun st2 x h2 => drainsParse_unregisterSink c st2 x h2) _ st h
    · apply drainsParse_foldl c (addMissingDrain c appId)
        (fun st2 x h2 => drainsParse_addMissingDrain c appId st2 x h2)
      apply drainsParse_foldl c (dropUnsentDrain drainUrls) _ _ st h
      intro st2 x h2
      unfold dropUnsentDrain
      split
      · exact h2
      · exact drainsParse_unregisterSink c st2 x h2

theorem drainsParse_manageDumps (c : Collaborators) (st : RouterState) (appId : String)
    (h : drainsParse c st) : drainsParse c (manageDumps c st appId) := by
  have hreg : drainsParse c (registerSink st (NewDumpSink c appId)).1 :=
    drainsParse_registerSink c st _ (fun hk => SinkKind.noConfusion hk) h
  unfold manageDumps
  cases st.activeSinks.DumpFor appId with
  | some d => exact h
  | none =>
    simp only []
    by_cases hok : (registerSink st (NewDumpSink c appId)).2 = true
    · rw [if_pos hok]
      exact fun t ht hk => hreg t ht hk
    · rw [if_neg hok]
      exact hreg

/-- One iteration of the router loop keeps every registered drain parseable,
unless the event brings an unparseable drain from outside. -/
theorem drainsParse_step (c : Collaborators) (Dump : Sink → List Message) (st : RouterState)
    (e : Event) (he : opensParsedDrain c e = true) (h : drainsParse c st) :
    drainsParse c (step c Dump st e) := by
  cases e with
  | dumpReceiver appId outputChannel =>
    simp only [step]
    split
    · exact fun t ht hk => h t ht hk
    · exact h
  | sinkOpen s =>
    simp only [opensParsedDrain, decide_eq_true_eq] at he
    exact drainsParse_registerSink c st s he h
  | sinkClose s => exact drainsParse_unregisterSink c st s h
  | error receivedMessage => exact fun t ht hk => h t ht hk
  | parsedMessage receivedMessage =>
    have h2 := drainsParse_manageDumps c _ receivedMessage.logMessage.appId
      (drainsParse_manageDrains c st receivedMessage.logMessage.appId
        receivedMessage.logMessage.drainUrls receivedMessage.logMessage.sourceType h)
    exact fun t ht hk => h2 t ht hk

/-- In every state the router reaches from the empty registry, every registered
drain has a parseable URL, as long as no unparseable drain is brought from
outside on the sink-open channel. -/
theorem drainsParse_Start (c : Collaborators) (events : List ((Sink → List Message) × Event))
    (hev : events.all (fun e => opensParsedDrain c e.2) = true) :
    drainsParse c (Start c events) := by
  have hgen : ∀ (l : List ((Sink → List Message) × Event)) (st : RouterState),
      l.all (fun e => opensParsedDrain c e.2) = true → drainsParse c st →
      drainsParse c (l.foldl (fun st e => step c e.1 st e.2) st) := by
    intro l
    induction l with
    | nil => intro st _ h; exact h
    | cons x xs ih =>
      intro st hl h
      rw [List.all_cons, Bool.and_eq_true] at hl
      exact ih _ hl.2 (drainsParse_step c x.1 st x.2 hl.1 h)
  exact hgen events RouterState.init hev (fun t ht => absurd ht (List.not_mem_nil t))

/-- C1 (drain reconciliation postcondition). For every registry state the router
reaches from the empty registry by any sequence of events (sink open, sink close,
dump request, error envelope, primary envelope) in which no SyslogSink with an
unparseable identifier is brought from outside on the sink-open channel, for every
AppId and every URL list `U`, empty or not: after `manageDrains` runs for a
`WARDEN_CONTAINER` envelope with `DrainUrls = U`, a URL is the identifier of a
SyslogSink registered for that AppId if and only if it is in `U` and parses
successfully; no SyslogSink is registered for that AppId when `U` is empty; and
the drains of every other AppId are unchanged. -/
theorem manageDrains_reconciles (c : Collaborators)
    (events : List ((Sink → List Message) × Event))
    (hev : events.all (fun e => opensParsedDrain c e.2) = true)
    (appId : String) (drainUrls : List String) :
    (∀ u, u ∈ drainIdentifiers
        (manageDrains c (Start c events) appId drainUrls
          SourceType.WARDEN_CONTAINER).activeSinks appId ↔
      u ∈ drainUrls ∧ c.urlParse u = true) ∧
    (drainUrls = [] →
      drainIdentifiers
        (manageDrains c (Start c events) appId drainUrls
          SourceType.WARDEN_CONTAINER).activeSinks appId = []) ∧
    (∀ b, b ≠ appId →
      (manageDrains c (Start c events) appId drainUrls
          SourceType.WARDEN_CONTAINER).activeSinks.DrainsFor b =
        (Start c events).activeSinks.DrainsFor b) := by
  have hinv := drainsParse_Start c events hev
  have hparse : ∀ u ∈ drainIdentifiers (Start c events).activeSinks appId,
      c.urlParse u = true := by
    intro u hu
    obtain ⟨t, ht, hk, _, hid⟩ := (mem_drainIdentifiers _ _ _).mp hu
    rw [← hid]
    exact hinv t ht hk
  obtain ⟨_, h2, h3, h4⟩ := manageDrains_drains_exact c (Start c events) appId drainUrls
  exact ⟨h2 hparse, h3, h4⟩

/-- Witness of C1: the router has built the drain `syslog://h1:1` of `app` from a
container envelope and a websocket subscriber has opened; the list
`[syslog://h2:2, %]` then leaves `syslog://h2:2` registered, and neither the
rejected `%` nor the former `syslog://h1:1`. -/
theorem manageDrains_reconciles_witness :
    [(emptyDumps, Event.parsedMessage
        ⟨⟨"app", ["syslog://h1:1"], SourceType.WARDEN_CONTAINER, "hello"⟩, 5⟩),
      (emptyDumps, Event.sinkOpen ⟨SinkKind.WebsocketSink, "app", "ws-1", true⟩)].all
        (fun e => opensParsedDrain exampleCollaborators e.2) = true ∧
    drainIdentifiers
        (manageDrains exampleCollaborators
          (Start exampleCollaborators
            [(emptyDumps, Event.parsedMessage
                ⟨⟨"app", ["syslog://h1:1"], SourceType.WARDEN_CONTAINER, "hello"⟩, 5⟩),
              (emptyDumps, Event.sinkOpen ⟨SinkKind.WebsocketSink, "app", "ws-1", true⟩)])
          "app" ["syslog://h2:2", "%"] SourceType.WARDEN_CONTAINER).activeSinks "app" =
      ["syslog://h2:2"] ∧
    ("syslog://h2:2" ∈ drainIdentifiers
        (manageDrains exampleCollaborators
          (Start exampleCollaborators
            [(emptyDumps, Event.parsedMessage
                ⟨⟨"app", ["syslog://h1:1"], SourceType.WARDEN_CONTAINER, "hello"⟩, 5⟩),
              (emptyDumps, Event.sinkOpen ⟨SinkKind.WebsocketSink, "app", "ws-1", true⟩)])
          "app" ["syslog://h2:2", "%"] SourceType.WARDEN_CONTAINER).activeSinks "app" ↔
      "syslog://h2:2" ∈ ["syslog://h2:2", "%"] ∧
        exampleCollaborators.urlParse "syslog://h2:2" = true) :=
  ⟨by decide, by decide,
    (manageDrains_reconciles exampleCollaborators
      [(emptyDumps, Event.parsedMessage
          ⟨⟨"app", ["syslog://h1:1"], SourceType.WARDEN_CONTAINER, "hello"⟩, 5⟩),
        (emptyDumps, Event.sinkOpen ⟨SinkKind.WebsocketSink, "app", "ws-1", true⟩)]
      (by decide) "app" ["syslog://h2:2", "%"]).1 "syslog://h2:2"⟩

end Sinkserver

namespace Listeners

/-! ## Returns of the handler before the end of the stream -/

/-- Counterexample to C3 as stated. The connection delivers the records of the
payloads `[1]` and `[2]`, which both unmarshal. When the shutdown signal wins the
first `select`, the handler returns after handing only `[1]` to the unmarshaller
and publishes nothing; when the connection is a TLS connection whose handshake
fails, the handler hands nothing to the unmarshaller and publishes nothing. -/
theorem handleConnection_returns_before_decoding :
    (handleConnection none (fun p => some p.length) (fun _ => true)
        (frames [[1], [2]]) ⟨0, 0, 0, [], []⟩).map
        (fun st => (st.unmarshalled, st.envelopeChan)) = some ([[1]], []) ∧
    (handleConnection (some false) (fun p => some p.length) neverStopped
        (frames [[1], [2]]) ⟨0, 0, 0, [], []⟩).map
        (fun st => (st.unmarshalled, st.envelopeChan)) = some ([], []) ∧
    ([[1], [2]] : List (List Byte)).filterMap (fun p => some p.length) = [1, 1] :=
  ⟨rfl, rfl, rfl⟩

/-- Counterexample to C7 as stated. A TLS connection whose handshake fails counts
one receive error although its stream is empty, which is a clean end at a record
boundary; and when the shutdown signal wins the `select` after the first record,
the handler returns without counting an error although the stream stops two bytes
into the next header. -/
theorem handleConnection_returns_with_other_error_count :
    (handleConnection (some false) (fun p => some p.length) neverStopped
        (frames []) ⟨0, 0, 0, [], []⟩).map
        (fun st => st.receiveErrorCount) = some 1 ∧
    (handleConnection none (fun p => some p.length) (fun _ => true)
        (frames [[7]] ++ [1, 0]) ⟨0, 0, 0, [], []⟩).map
        (fun st => st.receiveErrorCount) = some 0 ∧
    truncatedRecord ([1, 0] : List Byte) :=
  ⟨rfl, rfl, by decide, Or.inl (by decide)⟩

end Listeners
